import Mathlib

/-!
# The upload workflow of the leaf web front end

A shallow embedding of `web/static/javascript/script.js` (drop zone, upload
orchestration, progress presenter) and of the unauthenticated guard of
`web/static/javascript/account.js`.

Modelling conventions.

* The DOM is a record of the elements the scripts look up. An element that a
  lookup may fail to find is an `Option`; the scripts guard each such lookup
  (`if (hint)`, `if (input)`, `if (!progressBar) return`, ...), and the model
  keeps every guard.
* The page has one drop zone. Its `.input-file` control is the one found both by
  `dz.querySelector(".input-file")` and by `uploadForm.querySelector(".input-file")`,
  and its `.file-label` is the one found both by `dz.querySelector(".file-label")`
  and through `inp.closest(".file-input")`.
* Event listeners are state transformers on the page; a dispatch runs the
  listeners registered for the event one after the other.
* `window.location = url` requests a navigation and does not interrupt the
  running script: the model records the requested target in `navigation` and
  keeps `href`, the URL of the current document, which `startUpload` reads.
* The listeners of script.js for `submit` and for the drag events call
  `preventDefault` before anything else, so the browser's default action (a
  native form submission, opening the dropped file) does not take place; the
  model has no default actions.
* A callback scheduled with `setTimeout` is a state transformer of its own, run
  on the page as the listeners left it.
* `requests` (the bodies handed to `xhr.send`) and `startUploadCalls` are
  observation fields: they record what the scripts did and are never read by them.
-/

namespace Leaf

/-! ## Strings -/

/-- JavaScript truthiness of a string: every string but the empty one. -/
def truthy (s : String) : Bool := !s.data.isEmpty

/-- `String.prototype.toLowerCase`, on the ASCII letters. The suffix test against
`".leaf"` is not affected by the code points outside ASCII: no such code point has a
lowercase mapping that ends in one of `.`, `l`, `e`, `a`, `f`. -/
def toLowerCase (s : String) : String := ⟨s.data.map Char.toLower⟩

/-- `String.prototype.endsWith`. -/
def endsWith (s suffix : String) : Bool := suffix.data.isSuffixOf s.data

/-- `String.prototype.includes`. -/
def includes (s t : String) : Bool := s.data.tails.any (fun u => t.data.isPrefixOf u)

/-! ## Data model -/

/-- A `File`; the scripts read only its `name`. -/
structure File where
  name : String
deriving DecidableEq

/-- The `.input-file` control; `files` is its `FileList` (`none` for a null one). -/
structure InputFile where
  files : Option (List File)
deriving DecidableEq

/-- One `.drop-zone` element with the descendants the scripts look up. -/
structure DropZone where
  /-- The tokens of `dz.classList`. -/
  classList : List String
  /-- The `.input-file` control inside the zone, if there is one. -/
  input : Option InputFile
  /-- The `textContent` of the `.file-label` element, if there is one. -/
  label : Option String
  /-- The `textContent` of the `.drop-hint` element, if there is one. -/
  hint : Option String
deriving DecidableEq

/-- `classList.add(c)`. -/
def classAdd (c : String) (cl : List String) : List String :=
  if c ∈ cl then cl else cl ++ [c]

/-- `classList.remove(c)`. -/
def classRemove (c : String) (cl : List String) : List String :=
  cl.filter (fun d => d != c)

/-- The value of `input && input.files && input.files[0]`, `none` when it is falsy. -/
def firstFile (input : Option InputFile) : Option File :=
  match input with
  | none => none
  | some inp =>
    match inp.files with
    | some (f :: _) => some f
    | _ => none

/-! ## Drop zone controller (script.js, lines 18-78) -/

/-- The `dragenter` listener. -/
def onDragenter (dz : DropZone) : DropZone :=
  { dz with classList := classAdd "dragover" dz.classList }

/-- The `dragover` listener. -/
def onDragover (dz : DropZone) : DropZone :=
  { dz with classList := classAdd "dragover" dz.classList }

/-- The `dragleave` listener. -/
def onDragleave (dz : DropZone) : DropZone :=
  { dz with classList := classRemove "dragover" dz.classList }

/-- The extension test of the drop listener:
`!f.name || !f.name.toLowerCase().endsWith(".leaf")`. -/
def rejects (f : File) : Bool :=
  !truthy f.name || !endsWith (toLowerCase f.name) ".leaf"

/-- The `try` block of the drop listener. `dtOk` tells whether the browser lets the
script build a `DataTransfer` and assign its file list to the control; when it does
not, the block throws before or at the assignment and the control is untouched. -/
def assignFile (dtOk : Bool) (f : File) (input : Option InputFile) : Option InputFile :=
  if dtOk then input.map (fun _ => { files := some [f] }) else input

/-- The first `drop` listener of the zone. `dt` is `e.dataTransfer.files`, `none`
when the event has no `dataTransfer`. -/
def onDrop (dtOk : Bool) (dt : Option (List File)) (dz : DropZone) : DropZone :=
  let dz1 := { dz with classList := classRemove "dragover" dz.classList }
  match dt.getD [] with
  | [] => dz1
  | f :: _ =>
    if rejects f then
      { dz1 with
        hint := dz1.hint.map (fun _ => "Only .leaf files allowed")
        classList := classRemove "ready" dz1.classList }
    else
      { dz1 with
        input := assignFile dtOk f dz1.input
        label := dz1.label.map (fun _ => f.name)
        classList := classAdd "ready" dz1.classList }

/-- The two listeners that a drag gesture over the zone can trigger before it
leaves or drops. -/
inductive DragMove where
  | enter
  | over
deriving DecidableEq

/-- Dispatch of one `dragenter` or `dragover` event. -/
def dragMove (dz : DropZone) (m : DragMove) : DropZone :=
  match m with
  | .enter => onDragenter dz
  | .over => onDragover dz

/-- A gesture that enters or hovers (`m` first, then `ms`) and then leaves
without dropping. -/
def dragAndLeave (m : DragMove) (ms : List DragMove) (dz : DropZone) : DropZone :=
  onDragleave ((m :: ms).foldl dragMove dz)

/-! ## Page state -/

/-- The `#upload-form` element; `action` is its `action` property. -/
structure Form where
  action : String
deriving DecidableEq

/-- An `a` element of the `.nav` bar. -/
structure NavLink where
  /-- The `href` attribute, if the element has one. -/
  href : Option String
  textContent : String
deriving DecidableEq

/-- What `xhr.open("POST", url)` and `xhr.send(new FormData(form))` hand to the
transport: the files of the request body are those of the form's file control. -/
structure Request where
  method : String
  url : String
  files : List File
deriving DecidableEq

/-- The page as the two scripts see it. -/
structure Page where
  /-- The `a` elements under `.nav`. -/
  nav : List NavLink
  /-- The drop zone. -/
  dz : DropZone
  /-- `document.getElementById("upload-form")`. -/
  uploadForm : Option Form
  /-- The `textContent` of `#preview-name`. -/
  previewName : Option String
  /-- The class list of `#upload-preview`. -/
  previewBox : Option (List String)
  /-- The `style.width` of `#upload-progress-bar`. -/
  progressBar : Option String
  /-- The `disabled` property of `#submit-btn`. -/
  submitBtn : Option Bool
  /-- The URL of the current document, `window.location.href`. -/
  href : String
  /-- The last value assigned to `window.location`, `none` if none was. -/
  navigation : Option String
  /-- The messages shown with `alert`, oldest first. -/
  alerts : List String
  /-- The requests sent with `xhr.send`, oldest first. -/
  requests : List Request
  /-- The number of calls of `startUpload` so far. -/
  startUploadCalls : Nat
deriving DecidableEq

/-- `alert(msg)`. -/
def alert (msg : String) (p : Page) : Page :=
  { p with alerts := p.alerts ++ [msg] }

/-! ## Upload orchestrator (script.js, lines 151-229) -/

/-- `showPreview(name)`. -/
def showPreview (name : String) (p : Page) : Page :=
  { p with
    previewName := p.previewName.map (fun _ => name)
    previewBox := p.previewBox.map (classAdd "visible") }

/-- The file entries of `new FormData(form)`: the file list of the form's file
control. -/
def formFiles (p : Page) : List File :=
  match p.dz.input with
  | none => []
  | some inp => inp.files.getD []

/-- The target of `xhr.open`: `form.action || window.location.href`. -/
def uploadUrl (fm : Form) (p : Page) : String :=
  if truthy fm.action then fm.action else p.href

/-- `startUpload(form)`, up to and including `xhr.send(fd)`. The body of the
`async` function has no `await`, so it runs to its end within the call. -/
def startUpload (form : Option Form) (p : Page) : Page :=
  let p1 := { p with startUploadCalls := p.startUploadCalls + 1 }
  match form with
  | none => p1
  | some fm =>
    { p1 with
      submitBtn := p1.submitBtn.map (fun _ => true)
      requests := p1.requests ++
        [{ method := "POST"
           url := uploadUrl fm p1
           files := formFiles p1 }] }

/-- The handler `xhr.onload`, for a response of status `status`. -/
def xhrOnload (status : Int) (p : Page) : Page :=
  if 200 ≤ status ∧ status < 400 then
    { p with navigation := some "/upload/success" }
  else
    alert "Upload failed. Please try again."
      { p with submitBtn := p.submitBtn.map (fun _ => false) }

/-- The handler `xhr.onerror`. -/
def xhrOnerror (p : Page) : Page :=
  alert "Upload failed due to network error."
    { p with submitBtn := p.submitBtn.map (fun _ => false) }

/-- The `submit` listener of script.js. It is registered only when the page has
the upload form. -/
def onSubmit (p : Page) : Page :=
  match p.uploadForm with
  | none => p
  | some fm =>
    match firstFile p.dz.input with
    | none => alert "Please select a .leaf file to upload." p
    | some _ => startUpload (some fm) p

/-- The callback that the second `drop` listener of script.js schedules with
`setTimeout(..., 80)`. -/
def autoStart (p : Page) : Page :=
  match firstFile p.dz.input with
  | none => p
  | some f => startUpload p.uploadForm (showPreview f.name p)

/-- The `change` listeners of the file control (script.js lines 4-15 and 224-227),
run after the browser has stored the picked files `fs` in the control. -/
def onPick (fs : List File) (p : Page) : Page :=
  match p.dz.input with
  | none => p
  | some _ =>
    let dz1 := { p.dz with input := some { files := some fs } }
    match fs with
    | [] => { p with dz := dz1 }
    | f :: _ =>
      let dz2 :=
        match dz1.label with
        | none => dz1
        | some _ => { dz1 with label := some f.name, classList := classAdd "ready" dz1.classList }
      showPreview f.name { p with dz := dz2 }

/-- What script.js does with a `drop` event when nothing else happens before the
80 ms timer fires: the first listener, then the scheduled callback. -/
def dropAndSettle (dtOk : Bool) (dt : Option (List File)) (p : Page) : Page :=
  autoStart { p with dz := onDrop dtOk dt p.dz }

/-! ## Numbers and the progress presenter (script.js, lines 163-178)

A JavaScript number is an IEEE 754 double. The finite doubles are rationals, and
an arithmetic operation returns the double nearest to the exact result (ties to
the even significand). The model keeps the 53-bit significand and leaves the
exponent unbounded: overflow to `Infinity` and subnormal results do not arise
for byte counts, which the browser reports as 64-bit unsigned integers. Division
is modelled for a nonzero divisor; the browser reports `lengthComputable` only
together with a nonzero `total`. -/

/-- The integer nearest to `x`, the even one when two are equally near. -/
def roundTiesEven (x : ℚ) : ℤ :=
  if x - ⌊x⌋ < 1 / 2 then ⌊x⌋
  else if 1 / 2 < x - ⌊x⌋ then ⌊x⌋ + 1
  else if ⌊x⌋ % 2 = 0 then ⌊x⌋ else ⌊x⌋ + 1

/-- The double nearest to the rational `q`: `q` is scaled by the power of two that
brings it to 53 significant bits, rounded to an integer and scaled back. -/
def toDouble (q : ℚ) : ℚ :=
  if q = 0 then 0
  else roundTiesEven (q / 2 ^ (Int.log 2 |q| - 52)) * 2 ^ (Int.log 2 |q| - 52)

/-- The operator `/` on numbers. -/
def numDiv (a b : ℚ) : ℚ := toDouble (a / b)

/-- The operator `*` on numbers. -/
def numMul (a b : ℚ) : ℚ := toDouble (a * b)

/-- `Math.round`: the nearest integer, the larger one when two are equally near. -/
def mathRound (x : ℚ) : ℤ := ⌊x + 1 / 2⌋

/-- The constant `clamped` of `setProgress`:
`Math.min(100, Math.max(0, Math.round(pct * 100)))`. -/
def clampedPercent (pct : ℚ) : ℤ := min 100 (max 0 (mathRound (numMul pct 100)))

/-- `setProgress(pct)`. -/
def setProgress (pct : ℚ) (p : Page) : Page :=
  match p.progressBar with
  | none => p
  | some _ => { p with progressBar := some (toString (clampedPercent pct) ++ "%") }

/-- The argument `e.loaded / e.total` of `setProgress`; the two byte counts reach
the script as numbers. -/
def progressFraction (loaded total : ℕ) : ℚ := numDiv (toDouble loaded) (toDouble total)

/-- The handler `xhr.upload.onprogress`. -/
def xhrOnprogress (lengthComputable : Bool) (loaded total : ℕ) (p : Page) : Page :=
  if lengthComputable then setProgress (progressFraction loaded total) p else p

/-- The percentage as the specification words it, `round(clamp(fraction, 0, 1) * 100)`
with round the nearest integer, halves up: `fraction` is a real number and the
arithmetic is exact. -/
def specPercent (fraction : ℚ) : ℤ := mathRound (min 1 (max 0 fraction) * 100)

/-- The same formula evaluated as the script would evaluate it, on the number
`fraction` and with the product of numbers: the clamp comes before the rounding. -/
def clampFirstPercent (fraction : ℚ) : ℤ := mathRound (numMul (min 1 (max 0 fraction)) 100)

/-! ## Unauthenticated guard (account.js, lines 27-67) -/

/-- The white space and line terminator code points that `String.prototype.trim`
strips. -/
def isTrimmed (c : Char) : Bool :=
  c.val ∈ [0x9, 0xA, 0xB, 0xC, 0xD, 0x20, 0xA0, 0x1680, 0x2028, 0x2029, 0x202F, 0x205F,
    0x3000, 0xFEFF] || (0x2000 ≤ c.val && c.val ≤ 0x200A)

/-- `String.prototype.trim`. -/
def trim (s : String) : String :=
  ⟨((s.data.dropWhile isTrimmed).reverse.dropWhile isTrimmed).reverse⟩

/-- `queryContains(".nav a", text)` as a truth value: some link has `text` in its
trimmed text content. -/
def queryContains (nav : List NavLink) (text : String) : Bool :=
  nav.any (fun n => includes (trim n.textContent) text)

/-- The constant `logged` of account.js. -/
def logged (nav : List NavLink) : Bool :=
  let logout :=
    nav.any (fun n => match n.href with
      | none => false
      | some h => includes h "logout") || queryContains nav "Logout"
  let hi := queryContains nav "Hi,"
  logout || hi

/-- Whether account.js registers its `submit` and `drop` listeners:
`!logged` and the upload form exists. -/
def guardsUpload (p : Page) : Bool :=
  !logged p.nav && p.uploadForm.isSome

/-- The `submit` listener of account.js, and likewise its `drop` listener: both
only assign `window.location`. -/
def accountRedirect (p : Page) : Page :=
  if guardsUpload p then { p with navigation := some "/login?next=/upload" } else p

/-- Dispatch of a `submit` event on the upload form with the listeners of both
scripts registered; `accountFirst` tells which script registered first. -/
def dispatchSubmit (accountFirst : Bool) (p : Page) : Page :=
  if accountFirst then onSubmit (accountRedirect p) else accountRedirect (onSubmit p)

/-! ## Sample pages -/

/-- A signed-in page with the upload form and a file control with an empty file
list. -/
def emptyPage : Page :=
  { nav := [{ href := some "/logout", textContent := "Logout" }]
    dz := { classList := [], input := some { files := some [] },
            label := some "Choose a file", hint := some "Drop a .leaf file here" }
    uploadForm := some { action := "/upload" }
    previewName := some ""
    previewBox := some []
    progressBar := some "0%"
    submitBtn := some false
    href := "https://leaf.example/upload"
    navigation := none
    alerts := []
    requests := []
    startUploadCalls := 0 }

/-- The page after the user has picked "old.leaf" with the file picker. -/
def pickedPage : Page := onPick [{ name := "old.leaf" }] emptyPage

/-- A page whose navigation has neither a logout link nor a greeting, with
"a.leaf" picked in the file control. -/
def guestPage : Page :=
  { onPick [{ name := "a.leaf" }] emptyPage with
    nav := [{ href := some "/login", textContent := "Login" },
            { href := some "/signup", textContent := "Sign up" }] }

/-! ## Class list lemmas -/

theorem mem_classAdd (c d : String) (cl : List String) :
    d ∈ classAdd c cl ↔ d = c ∨ d ∈ cl := by
  unfold classAdd
  split
  · constructor
    · intro h; exact Or.inr h
    · rintro (h | h)
      · subst h; assumption
      · exact h
  · simp [or_comm]

theorem mem_classRemove (c d : String) (cl : List String) :
    d ∈ classRemove c cl ↔ d ≠ c ∧ d ∈ cl := by
  unfold classRemove
  simp [List.mem_filter, and_comm]

theorem classList_foldl_dragMove (ms : List DragMove) (dz : DropZone) (d : String)
    (hd : d ≠ "dragover") :
    d ∈ (ms.foldl dragMove dz).classList ↔ d ∈ dz.classList := by
  induction ms generalizing dz with
  | nil => simp
  | cons m ms ih =>
    rw [List.foldl_cons, ih]
    cases m <;> simp [dragMove, onDragenter, onDragover, mem_classAdd, hd]

theorem rejects_eq_false_iff (f : File) :
    rejects f = false ↔ endsWith (toLowerCase f.name) ".leaf" = true := by
  unfold rejects truthy
  constructor
  · intro h
    simp only [Bool.or_eq_false_iff, Bool.not_eq_false_eq_eq_true] at h
    simpa using h.2
  · intro h
    have hne : f.name.data ≠ [] := by
      intro h0
      simp [endsWith, toLowerCase, h0] at h
    cases hd : f.name.data with
    | nil => exact absurd hd hne
    | cons a l => simp [h]

/-! ## Rounding lemmas -/

theorem roundTiesEven_mono {x y : ℚ} (h : x ≤ y) : roundTiesEven x ≤ roundTiesEven y := by
  have hf : ⌊x⌋ ≤ ⌊y⌋ := Int.floor_mono h
  rcases hf.lt_or_eq with hlt | heq
  · have h1 : roundTiesEven x ≤ ⌊x⌋ + 1 := by unfold roundTiesEven; split_ifs <;> omega
    have h2 : ⌊y⌋ ≤ roundTiesEven y := by unfold roundTiesEven; split_ifs <;> omega
    omega
  · unfold roundTiesEven
    rw [heq]
    split_ifs <;> first | omega | (exfalso; linarith)

theorem roundTiesEven_intCast (n : ℤ) : roundTiesEven (n : ℚ) = n := by
  simp [roundTiesEven]

theorem log_abs_of_pos {q : ℚ} (hq : 0 < q) :
    (2 : ℚ) ^ Int.log 2 |q| ≤ q ∧ q < (2 : ℚ) ^ (Int.log 2 |q| + 1) := by
  rw [abs_of_pos hq]
  have h1 := Int.zpow_log_le_self (b := 2) (by norm_num) hq
  have h2 := Int.lt_zpow_succ_log_self (b := 2) (by norm_num) q
  simp only [Nat.cast_ofNat] at h1 h2
  exact ⟨h1, h2⟩

theorem pow52_mul_ulp (e : ℤ) : ((2 ^ 52 : ℤ) : ℚ) * 2 ^ (e - 52) = 2 ^ e := by
  have h : ((2 ^ 52 : ℤ) : ℚ) = (2 : ℚ) ^ (52 : ℤ) := by norm_num
  rw [h, ← zpow_add₀ (by norm_num : (2 : ℚ) ≠ 0)]
  congr 1
  ring

theorem pow53_mul_ulp (e : ℤ) : ((2 ^ 53 : ℤ) : ℚ) * 2 ^ (e - 52) = 2 ^ (e + 1) := by
  have h : ((2 ^ 53 : ℤ) : ℚ) = (2 : ℚ) ^ (53 : ℤ) := by norm_num
  rw [h, ← zpow_add₀ (by norm_num : (2 : ℚ) ≠ 0)]
  congr 1
  ring

theorem toDouble_bounds {q : ℚ} (hq : 0 < q) :
    (2 : ℚ) ^ Int.log 2 |q| ≤ toDouble q ∧ toDouble q ≤ (2 : ℚ) ^ (Int.log 2 |q| + 1) := by
  obtain ⟨h1, h2⟩ := log_abs_of_pos hq
  set e := Int.log 2 |q| with he
  have hu : (0 : ℚ) < 2 ^ (e - 52) := by positivity
  have hm1 : ((2 ^ 52 : ℤ) : ℚ) ≤ q / 2 ^ (e - 52) := by
    rw [le_div_iff₀ hu]
    rw [pow52_mul_ulp]; exact h1
  have hm2 : q / 2 ^ (e - 52) ≤ ((2 ^ 53 : ℤ) : ℚ) := by
    rw [div_le_iff₀ hu]
    rw [pow53_mul_ulp]; exact h2.le
  have r1 := roundTiesEven_mono hm1
  have r2 := roundTiesEven_mono hm2
  rw [roundTiesEven_intCast] at r1 r2
  have r1q : ((2 ^ 52 : ℤ) : ℚ) ≤ (roundTiesEven (q / 2 ^ (e - 52)) : ℚ) := by exact_mod_cast r1
  have r2q : (roundTiesEven (q / 2 ^ (e - 52)) : ℚ) ≤ ((2 ^ 53 : ℤ) : ℚ) := by exact_mod_cast r2
  have hq0 : q ≠ 0 := hq.ne'
  unfold toDouble
  rw [if_neg hq0, ← he]
  constructor
  · rw [← pow52_mul_ulp e]
    exact mul_le_mul_of_nonneg_right r1q hu.le
  · rw [← pow53_mul_ulp e]
    exact mul_le_mul_of_nonneg_right r2q hu.le

theorem toDouble_pos {q : ℚ} (hq : 0 < q) : 0 < toDouble q :=
  lt_of_lt_of_le (by positivity) (toDouble_bounds hq).1

theorem toDouble_mono {a b : ℚ} (ha : 0 ≤ a) (hab : a ≤ b) : toDouble a ≤ toDouble b := by
  rcases ha.lt_or_eq with hpos | h0
  · have hb : 0 < b := lt_of_lt_of_le hpos hab
    have hlog : Int.log 2 |a| ≤ Int.log 2 |b| := by
      rw [abs_of_pos hpos, abs_of_pos hb]
      exact Int.log_mono_right hpos hab
    rcases hlog.lt_or_eq with hlt | heq
    · calc toDouble a ≤ (2 : ℚ) ^ (Int.log 2 |a| + 1) := (toDouble_bounds hpos).2
        _ ≤ (2 : ℚ) ^ Int.log 2 |b| := zpow_le_zpow_right₀ (by norm_num) (by omega)
        _ ≤ toDouble b := (toDouble_bounds hb).1
    · unfold toDouble
      rw [if_neg hpos.ne', if_neg hb.ne', heq]
      have hu : (0 : ℚ) < 2 ^ (Int.log 2 |b| - 52) := by positivity
      have hdiv : a / 2 ^ (Int.log 2 |b| - 52) ≤ b / 2 ^ (Int.log 2 |b| - 52) :=
        div_le_div_of_nonneg_right hab hu.le
      have := roundTiesEven_mono hdiv
      exact mul_le_mul_of_nonneg_right (by exact_mod_cast this) hu.le
  · subst h0
    rcases hab.lt_or_eq with hb | hb
    · have := toDouble_pos hb
      simp [toDouble] at this ⊢
      simpa [toDouble] using this.le
    · subst hb; exact le_rfl

theorem toDouble_scaled (k j : ℤ) (h1 : 2 ^ 52 ≤ k) (h2 : k < 2 ^ 53) :
    toDouble ((k : ℚ) * 2 ^ j) = (k : ℚ) * 2 ^ j := by
  have hk : (0 : ℚ) < k := by
    have : (0 : ℤ) < k := lt_of_lt_of_le (by norm_num) h1
    exact_mod_cast this
  have hj : (0 : ℚ) < 2 ^ j := by positivity
  have hq : (0 : ℚ) < (k : ℚ) * 2 ^ j := mul_pos hk hj
  have hlog : Int.log 2 |(k : ℚ) * 2 ^ j| = 52 + j := by
    rw [abs_of_pos hq]
    apply le_antisymm
    · have hlt : (k : ℚ) * 2 ^ j < ((2 : ℕ) : ℚ) ^ (53 + j) := by
        rw [Nat.cast_ofNat, zpow_add₀ (by norm_num : (2 : ℚ) ≠ 0)]
        have : (k : ℚ) < (2 : ℚ) ^ (53 : ℤ) := by
          have h53 : (k : ℚ) < ((2 ^ 53 : ℤ) : ℚ) := by exact_mod_cast h2
          have e53 : ((2 ^ 53 : ℤ) : ℚ) = (2 : ℚ) ^ (53 : ℤ) := by norm_num
          rwa [e53] at h53
        exact mul_lt_mul_of_pos_right this hj
      have := (Int.lt_zpow_iff_log_lt (b := 2) (by norm_num) hq).1 hlt
      omega
    · have hle : ((2 : ℕ) : ℚ) ^ (52 + j) ≤ (k : ℚ) * 2 ^ j := by
        rw [Nat.cast_ofNat, zpow_add₀ (by norm_num : (2 : ℚ) ≠ 0)]
        have : (2 : ℚ) ^ (52 : ℤ) ≤ (k : ℚ) := by
          have h52 : ((2 ^ 52 : ℤ) : ℚ) ≤ (k : ℚ) := by exact_mod_cast h1
          have e52 : ((2 ^ 52 : ℤ) : ℚ) = (2 : ℚ) ^ (52 : ℤ) := by norm_num
          rwa [e52] at h52
        exact mul_le_mul_of_nonneg_right this hj.le
      exact (Int.zpow_le_iff_le_log (b := 2) (by norm_num) hq).1 hle
  unfold toDouble
  rw [if_neg hq.ne', hlog]
  have hsub : 52 + j - 52 = j := by ring
  rw [hsub]
  have hdiv : (k : ℚ) * 2 ^ j / 2 ^ j = (k : ℚ) := by field_simp
  rw [hdiv, roundTiesEven_intCast]

theorem toDouble_zero : toDouble 0 = 0 := by simp [toDouble]

theorem toDouble_one : toDouble 1 = 1 := by
  have h := toDouble_scaled (2 ^ 52) (-52) (by norm_num) (by norm_num)
  norm_num at h
  exact h

theorem toDouble_quarter : toDouble (1 / 4) = 1 / 4 := by
  have h := toDouble_scaled (2 ^ 52) (-54) (by norm_num) (by norm_num)
  norm_num at h
  simpa using h

theorem toDouble_25 : toDouble 25 = 25 := by
  have h := toDouble_scaled (25 * 2 ^ 48) (-48) (by norm_num) (by norm_num)
  norm_num at h
  exact h

theorem toDouble_50 : toDouble 50 = 50 := by
  have h := toDouble_scaled (50 * 2 ^ 47) (-47) (by norm_num) (by norm_num)
  norm_num at h
  exact h

theorem toDouble_100 : toDouble 100 = 100 := by
  have h := toDouble_scaled (100 * 2 ^ 46) (-46) (by norm_num) (by norm_num)
  norm_num at h
  exact h

theorem toDouble_200 : toDouble 200 = 200 := by
  have h := toDouble_scaled (200 * 2 ^ 45) (-45) (by norm_num) (by norm_num)
  norm_num at h
  exact h

theorem toDouble_of_log {q : ℚ} (e : ℤ) (h1 : (2 : ℚ) ^ e ≤ q) (h2 : q < (2 : ℚ) ^ (e + 1)) :
    toDouble q = roundTiesEven (q / 2 ^ (e - 52)) * 2 ^ (e - 52) := by
  have hq : 0 < q := lt_of_lt_of_le (by positivity) h1
  have hlog : Int.log 2 |q| = e := by
    rw [abs_of_pos hq]
    apply le_antisymm
    · have := (Int.lt_zpow_iff_log_lt (b := 2) (by norm_num) hq).1
        (by rw [Nat.cast_ofNat]; exact h2)
      omega
    · exact (Int.zpow_le_iff_le_log (b := 2) (by norm_num) hq).1
        (by rw [Nat.cast_ofNat]; exact h1)
  unfold toDouble
  rw [if_neg hq.ne', hlog]

theorem roundTiesEven_of_lt_half {x : ℚ} (n : ℤ) (h1 : (n : ℚ) ≤ x) (h2 : x < n + 1 / 2) :
    roundTiesEven x = n := by
  have hf : ⌊x⌋ = n := by
    rw [Int.floor_eq_iff]
    exact ⟨h1, by linarith⟩
  unfold roundTiesEven
  rw [hf, if_pos (by linarith)]

theorem numDiv_29_200 : numDiv 29 200 = 5224175567749775 / 2 ^ 55 := by
  unfold numDiv
  rw [toDouble_of_log (-3) (by norm_num) (by norm_num),
    roundTiesEven_of_lt_half 5224175567749775 (by norm_num) (by norm_num)]
  norm_num

theorem numMul_145_100 :
    numMul (5224175567749775 / 2 ^ 55) 100 = 8162774324609023 / 2 ^ 49 := by
  unfold numMul
  rw [toDouble_of_log 3 (by norm_num) (by norm_num),
    roundTiesEven_of_lt_half 8162774324609023 (by norm_num) (by norm_num)]
  norm_num

theorem toDouble_29 : toDouble 29 = 29 := by
  have h := toDouble_scaled (29 * 2 ^ 48) (-48) (by norm_num) (by norm_num)
  norm_num at h
  exact h

theorem progressFraction_nonneg (loaded total : ℕ) : 0 ≤ progressFraction loaded total := by
  unfold progressFraction numDiv
  have h1 : (0 : ℚ) ≤ toDouble loaded := by
    have := toDouble_mono le_rfl (Nat.cast_nonneg loaded : (0 : ℚ) ≤ loaded)
    rwa [toDouble_zero] at this
  have h2 : (0 : ℚ) ≤ toDouble total := by
    have := toDouble_mono le_rfl (Nat.cast_nonneg total : (0 : ℚ) ≤ total)
    rwa [toDouble_zero] at this
  have := toDouble_mono le_rfl (div_nonneg h1 h2)
  rwa [toDouble_zero] at this

theorem progressFraction_mono {loaded loaded' : ℕ} (total : ℕ) (hle : loaded ≤ loaded') :
    progressFraction loaded total ≤ progressFraction loaded' total := by
  unfold progressFraction numDiv
  have h0 : (0 : ℚ) ≤ toDouble loaded := by
    have := toDouble_mono le_rfl (Nat.cast_nonneg loaded : (0 : ℚ) ≤ loaded)
    rwa [toDouble_zero] at this
  have h1 : toDouble (loaded : ℚ) ≤ toDouble (loaded' : ℚ) :=
    toDouble_mono (Nat.cast_nonneg loaded) (by exact_mod_cast hle)
  have h2 : (0 : ℚ) ≤ toDouble total := by
    have := toDouble_mono le_rfl (Nat.cast_nonneg total : (0 : ℚ) ≤ total)
    rwa [toDouble_zero] at this
  exact toDouble_mono (div_nonneg h0 h2) (div_le_div_of_nonneg_right h1 h2)

theorem clampedPercent_mono {x y : ℚ} (hx : 0 ≤ x) (hxy : x ≤ y) :
    clampedPercent x ≤ clampedPercent y := by
  unfold clampedPercent mathRound numMul
  have h1 : toDouble (x * 100) ≤ toDouble (y * 100) :=
    toDouble_mono (by positivity) (by linarith)
  have h2 : ⌊toDouble (x * 100) + 1 / 2⌋ ≤ ⌊toDouble (y * 100) + 1 / 2⌋ :=
    Int.floor_mono (by linarith)
  exact min_le_min le_rfl (max_le_max le_rfl h2)

theorem clampedPercent_eq_clampFirstPercent {x : ℚ} (hx : 0 ≤ x) :
    clampedPercent x = clampFirstPercent x := by
  unfold clampedPercent clampFirstPercent mathRound numMul
  have hy0 : 0 ≤ toDouble (x * 100) := by
    have := toDouble_mono le_rfl (by positivity : (0 : ℚ) ≤ x * 100)
    rwa [toDouble_zero] at this
  by_cases h1 : x ≤ 1
  · rw [max_eq_right hx, min_eq_right h1]
    have hy1 : toDouble (x * 100) ≤ 100 := by
      have := toDouble_mono (by positivity : (0 : ℚ) ≤ x * 100) (by linarith : x * 100 ≤ 100)
      rwa [toDouble_100] at this
    have hr0 : 0 ≤ ⌊toDouble (x * 100) + 1 / 2⌋ := Int.floor_nonneg.2 (by linarith)
    have hr1 : ⌊toDouble (x * 100) + 1 / 2⌋ < 101 := Int.floor_lt.2 (by push_cast; linarith)
    rw [max_eq_right hr0, min_eq_right (by omega)]
  · have h1' : 1 < x := lt_of_not_ge h1
    rw [max_eq_right hx, min_eq_left h1'.le]
    have hy : (100 : ℚ) ≤ toDouble (x * 100) := by
      have := toDouble_mono (by norm_num : (0 : ℚ) ≤ 100) (by linarith : (100 : ℚ) ≤ x * 100)
      rwa [toDouble_100] at this
    have hr : 100 ≤ ⌊toDouble (x * 100) + 1 / 2⌋ := Int.le_floor.2 (by push_cast; linarith)
    have hs : ⌊toDouble ((1 : ℚ) * 100) + 1 / 2⌋ = 100 := by
      rw [one_mul, toDouble_100]
      rw [Int.floor_eq_iff]
      constructor <;> norm_num
    rw [hs, max_eq_right (by omega), min_eq_left hr]

theorem roundTiesEven_err (x : ℚ) :
    x - 1 / 2 ≤ (roundTiesEven x : ℚ) ∧ (roundTiesEven x : ℚ) ≤ x + 1 / 2 := by
  have h1 : (⌊x⌋ : ℚ) ≤ x := Int.floor_le x
  have h2 : x < (⌊x⌋ : ℚ) + 1 := Int.lt_floor_add_one x
  unfold roundTiesEven
  split_ifs <;> push_cast <;> constructor <;> linarith

theorem toDouble_rel {q : ℚ} (hq : 0 ≤ q) :
    q * (1 - 1 / 2 ^ 53) ≤ toDouble q ∧ toDouble q ≤ q * (1 + 1 / 2 ^ 53) := by
  rcases hq.lt_or_eq with hpos | h0
  · obtain ⟨h1, _⟩ := log_abs_of_pos hpos
    set e := Int.log 2 |q| with he
    have hu : (0 : ℚ) < 2 ^ (e - 52) := by positivity
    have hue : (2 : ℚ) ^ (e - 52) * 2 ^ 52 = 2 ^ e := by
      have := pow52_mul_ulp e
      push_cast at this
      linarith
    obtain ⟨r1, r2⟩ := roundTiesEven_err (q / 2 ^ (e - 52))
    have hd : q / 2 ^ (e - 52) * 2 ^ (e - 52) = q := by field_simp
    have hval : toDouble q = roundTiesEven (q / 2 ^ (e - 52)) * 2 ^ (e - 52) := by
      unfold toDouble
      rw [if_neg hpos.ne', ← he]
    have b1 := mul_le_mul_of_nonneg_right r1 hu.le
    have b2 := mul_le_mul_of_nonneg_right r2 hu.le
    rw [← hval] at b1 b2
    rw [sub_mul, hd] at b1
    rw [add_mul, hd] at b2
    have hhalf : (1 : ℚ) / 2 * 2 ^ (e - 52) ≤ q * (1 / 2 ^ 53) := by
      have : (1 : ℚ) / 2 * 2 ^ (e - 52) = 2 ^ e * (1 / 2 ^ 53) := by
        rw [← hue]; ring
      rw [this]
      exact mul_le_mul_of_nonneg_right h1 (by positivity)
    constructor <;> linarith
  · subst h0
    simp [toDouble]

theorem toDouble_near {q : ℚ} (hq : 0 ≤ q) :
    q * (9999 / 10000) ≤ toDouble q ∧ toDouble q ≤ q * (10001 / 10000) := by
  obtain ⟨h1, h2⟩ := toDouble_rel hq
  have e1 : q * (9999 / 10000) ≤ q * (1 - 1 / 2 ^ 53) :=
    mul_le_mul_of_nonneg_left (by norm_num) hq
  have e2 : q * (1 + 1 / 2 ^ 53) ≤ q * (10001 / 10000) :=
    mul_le_mul_of_nonneg_left (by norm_num) hq
  exact ⟨le_trans e1 h1, le_trans h2 e2⟩

theorem toDouble_nonneg {q : ℚ} (hq : 0 ≤ q) : 0 ≤ toDouble q := by
  have := toDouble_mono le_rfl hq
  rwa [toDouble_zero] at this

theorem specPercent_range (loaded total : ℕ) :
    0 ≤ specPercent ((loaded : ℚ) / (total : ℚ)) ∧ specPercent ((loaded : ℚ) / (total : ℚ)) ≤ 100 := by
  unfold specPercent mathRound
  have h0 : (0 : ℚ) ≤ min 1 (max 0 ((loaded : ℚ) / (total : ℚ))) :=
    le_min (by norm_num) (le_max_left _ _)
  have h1 : min 1 (max 0 ((loaded : ℚ) / (total : ℚ))) ≤ 1 := min_le_left _ _
  constructor
  · exact Int.floor_nonneg.2 (by linarith)
  · have : ⌊min 1 (max 0 ((loaded : ℚ) / (total : ℚ))) * 100 + 1 / 2⌋ < 101 :=
      Int.floor_lt.2 (by push_cast; linarith)
    omega

theorem clampedPercent_near_specPercent (loaded total : ℕ) (htotal : 0 < total) :
    |clampedPercent (progressFraction loaded total) - specPercent ((loaded : ℚ) / (total : ℚ))| ≤ 1 := by
  have ht : (0 : ℚ) < (total : ℚ) := by exact_mod_cast htotal
  have hl : (0 : ℚ) ≤ (loaded : ℚ) := Nat.cast_nonneg loaded
  have hT : 0 < toDouble (total : ℚ) := toDouble_pos ht
  have hL : 0 ≤ toDouble (loaded : ℚ) := toDouble_nonneg hl
  have hr0 : 0 ≤ toDouble (loaded : ℚ) / toDouble (total : ℚ) := div_nonneg hL hT.le
  have hx0 : 0 ≤ toDouble (toDouble (loaded : ℚ) / toDouble (total : ℚ)) := toDouble_nonneg hr0
  obtain ⟨hs0, hs1⟩ := specPercent_range loaded total
  rcases Nat.lt_or_ge total loaded with hgt | hle
  · -- more bytes sent than the total: both sides are 100
    have hlt : (total : ℚ) ≤ (loaded : ℚ) := by exact_mod_cast hgt.le
    have hLT : toDouble (total : ℚ) ≤ toDouble (loaded : ℚ) := toDouble_mono ht.le hlt
    have hr1 : 1 ≤ toDouble (loaded : ℚ) / toDouble (total : ℚ) := (one_le_div hT).2 hLT
    have hx1 : 1 ≤ toDouble (toDouble (loaded : ℚ) / toDouble (total : ℚ)) := by
      have := toDouble_mono (by norm_num : (0 : ℚ) ≤ 1) hr1
      rwa [toDouble_one] at this
    have hy : (100 : ℚ) ≤
        toDouble (toDouble (toDouble (loaded : ℚ) / toDouble (total : ℚ)) * 100) := by
      have := toDouble_mono (by norm_num : (0 : ℚ) ≤ 100)
        (by linarith : (100 : ℚ) ≤
          toDouble (toDouble (loaded : ℚ) / toDouble (total : ℚ)) * 100)
      rwa [toDouble_100] at this
    have hR : 100 ≤ mathRound
        (toDouble (toDouble (toDouble (loaded : ℚ) / toDouble (total : ℚ)) * 100)) := by
      unfold mathRound
      exact Int.le_floor.2 (by push_cast; linarith)
    have hcode : clampedPercent (progressFraction loaded total) = 100 := by
      unfold clampedPercent progressFraction numDiv numMul
      rw [max_eq_right (by omega), min_eq_left hR]
    have hc : (1 : ℚ) ≤ (loaded : ℚ) / (total : ℚ) := (one_le_div ht).2 hlt
    have hspec : specPercent ((loaded : ℚ) / (total : ℚ)) = 100 := by
      unfold specPercent mathRound
      rw [max_eq_right (by linarith), min_eq_left hc, Int.floor_eq_iff]
      constructor <;> norm_num
    rw [hcode, hspec]
    norm_num
  · have hlt : (loaded : ℚ) ≤ (total : ℚ) := by exact_mod_cast hle
    have hc0 : (0 : ℚ) ≤ (loaded : ℚ) / (total : ℚ) := div_nonneg hl ht.le
    have hc1 : (loaded : ℚ) / (total : ℚ) ≤ 1 := (div_le_one ht).2 hlt
    have hct : (loaded : ℚ) / (total : ℚ) * (total : ℚ) = (loaded : ℚ) := by field_simp
    obtain ⟨hLl, hLu⟩ := toDouble_near hl
    obtain ⟨hTl, hTu⟩ := toDouble_near ht.le
    obtain ⟨hxl, hxu⟩ := toDouble_near hr0
    obtain ⟨hyl, hyu⟩ := toDouble_near
      (by positivity : (0 : ℚ) ≤
        toDouble (toDouble (loaded : ℚ) / toDouble (total : ℚ)) * 100)
    -- the quotient of the two doubles is near the exact quotient
    have hru : toDouble (loaded : ℚ) / toDouble (total : ℚ) ≤
        (loaded : ℚ) / (total : ℚ) * (10001 / 9999) := by
      rw [div_le_iff₀ hT]
      have h1 : (loaded : ℚ) / (total : ℚ) * (10001 / 9999) * ((total : ℚ) * (9999 / 10000)) ≤
          (loaded : ℚ) / (total : ℚ) * (10001 / 9999) * toDouble (total : ℚ) :=
        mul_le_mul_of_nonneg_left hTl (by positivity)
      have h2 : (loaded : ℚ) / (total : ℚ) * (10001 / 9999) * ((total : ℚ) * (9999 / 10000)) =
          (loaded : ℚ) / (total : ℚ) * (total : ℚ) * (10001 / 10000) := by ring
      rw [h2, hct] at h1
      linarith
    have hrl : (loaded : ℚ) / (total : ℚ) * (9999 / 10001) ≤
        toDouble (loaded : ℚ) / toDouble (total : ℚ) := by
      rw [le_div_iff₀ hT]
      have h1 : (loaded : ℚ) / (total : ℚ) * (9999 / 10001) * toDouble (total : ℚ) ≤
          (loaded : ℚ) / (total : ℚ) * (9999 / 10001) * ((total : ℚ) * (10001 / 10000)) :=
        mul_le_mul_of_nonneg_left hTu (by positivity)
      have h2 : (loaded : ℚ) / (total : ℚ) * (9999 / 10001) * ((total : ℚ) * (10001 / 10000)) =
          (loaded : ℚ) / (total : ℚ) * (total : ℚ) * (9999 / 10000) := by ring
      rw [h2, hct] at h1
      linarith
    have hyu2 : toDouble (toDouble (toDouble (loaded : ℚ) / toDouble (total : ℚ)) * 100) ≤
        (loaded : ℚ) / (total : ℚ) * 100 + 1 / 10 := by
      nlinarith [hyu, hxu, hru, hc0, hc1]
    have hyl2 : (loaded : ℚ) / (total : ℚ) * 100 - 1 / 10 ≤
        toDouble (toDouble (toDouble (loaded : ℚ) / toDouble (total : ℚ)) * 100) := by
      nlinarith [hyl, hxl, hrl, hc0, hc1]
    have hspec : specPercent ((loaded : ℚ) / (total : ℚ)) = ⌊(loaded : ℚ) / (total : ℚ) * 100 + 1 / 2⌋ := by
      unfold specPercent mathRound
      rw [max_eq_right hc0, min_eq_right hc1]
    have hcode : clampedPercent (progressFraction loaded total) = min 100 (max 0
        ⌊toDouble (toDouble (toDouble (loaded : ℚ) / toDouble (total : ℚ)) * 100) + 1 / 2⌋) := by
      unfold clampedPercent progressFraction numDiv numMul mathRound
      rfl
    have hup : ⌊toDouble (toDouble (toDouble (loaded : ℚ) / toDouble (total : ℚ)) * 100) + 1 / 2⌋ ≤
        ⌊(loaded : ℚ) / (total : ℚ) * 100 + 1 / 2⌋ + 1 := by
      rw [← Int.floor_add_one]
      exact Int.floor_mono (by linarith)
    have hlo : ⌊(loaded : ℚ) / (total : ℚ) * 100 + 1 / 2⌋ ≤
        ⌊toDouble (toDouble (toDouble (loaded : ℚ) / toDouble (total : ℚ)) * 100) + 1 / 2⌋ + 1 := by
      rw [← Int.floor_add_one]
      exact Int.floor_mono (by linarith)
    rw [hspec] at hs0 hs1 ⊢
    rw [hcode, abs_le]
    simp only [min_def, max_def]
    split_ifs <;> constructor <;> omega

/-! ## Validation on drop -/

/-- C1: for every name of the first dropped file, the drop listener takes its
acceptance branch (the extension test does not reject, and the zone ends up with the
`ready` class) if and only if the lowercased name ends with ".leaf"; when it rejects,
the text of the zone's hint element is "Only .leaf files allowed". "Program.LEAF" is
accepted; "notes.txt" and the empty name are rejected. -/
theorem drop_accepts_iff_leaf_suffix (dtOk : Bool) (f : File) (fs : List File)
    (dz : DropZone) :
    (rejects f = false ↔ endsWith (toLowerCase f.name) ".leaf" = true) ∧
    ("ready" ∈ (onDrop dtOk (some (f :: fs)) dz).classList ↔
      endsWith (toLowerCase f.name) ".leaf" = true) ∧
    (onDrop dtOk (some (f :: fs)) dz).hint =
      (if endsWith (toLowerCase f.name) ".leaf" = true then dz.hint
        else dz.hint.map (fun _ => "Only .leaf files allowed")) ∧
    rejects { name := "Program.LEAF" } = false ∧
    rejects { name := "notes.txt" } = true ∧
    rejects { name := "" } = true := by
  refine ⟨rejects_eq_false_iff f, ?_, ?_, by decide, by decide, by decide⟩
  · by_cases h : endsWith (toLowerCase f.name) ".leaf" = true
    · have hr : rejects f = false := (rejects_eq_false_iff f).2 h
      simp [onDrop, hr, h, mem_classAdd]
    · have hr : rejects f = true := by
        cases hq : rejects f with
        | true => rfl
        | false => exact absurd ((rejects_eq_false_iff f).1 hq) h
      simp [onDrop, hr, h, mem_classRemove]
  · by_cases h : endsWith (toLowerCase f.name) ".leaf" = true
    · have hr : rejects f = false := (rejects_eq_false_iff f).2 h
      simp [onDrop, hr, h]
    · have hr : rejects f = true := by
        cases hq : rejects f with
        | true => rfl
        | false => exact absurd ((rejects_eq_false_iff f).1 hq) h
      simp [onDrop, hr, h]

/-! ## Drag gestures -/

/-- C10, as stated, fails: a zone that is `ready` before the gesture still has the
`ready` class after a `dragenter` followed by a `dragleave`. -/
theorem drag_leave_keeps_ready_counterexample :
    ¬ ("dragover" ∉ (dragAndLeave .enter []
          { classList := ["ready"], input := none, label := none, hint := none }).classList ∧
       "ready" ∉ (dragAndLeave .enter []
          { classList := ["ready"], input := none, label := none, hint := none }).classList) := by
  decide

/-- C10, amended: after one or more `dragenter`/`dragover` events followed by a
`dragleave`, the zone has no `dragover` class and has the `ready` class exactly if
it had it before the gesture; its control, label and hint are untouched. -/
theorem drag_leave_restores_prior_state (m : DragMove) (ms : List DragMove)
    (dz : DropZone) :
    "dragover" ∉ (dragAndLeave m ms dz).classList ∧
    ("ready" ∈ (dragAndLeave m ms dz).classList ↔ "ready" ∈ dz.classList) ∧
    (dragAndLeave m ms dz).input = dz.input ∧
    (dragAndLeave m ms dz).label = dz.label ∧
    (dragAndLeave m ms dz).hint = dz.hint := by
  have hfields : ∀ (l : List DragMove) (z : DropZone),
      (l.foldl dragMove z).input = z.input ∧ (l.foldl dragMove z).label = z.label ∧
      (l.foldl dragMove z).hint = z.hint := by
    intro l
    induction l with
    | nil => intro z; simp
    | cons a l ih =>
      intro z
      rw [List.foldl_cons]
      obtain ⟨h1, h2, h3⟩ := ih (dragMove z a)
      rw [h1, h2, h3]
      cases a <;> simp [dragMove, onDragenter, onDragover]
  obtain ⟨h1, h2, h3⟩ := hfields (m :: ms) dz
  refine ⟨?_, ?_, ?_, ?_, ?_⟩
  · simp [dragAndLeave, onDragleave, mem_classRemove]
  · unfold dragAndLeave onDragleave
    simp only [mem_classRemove]
    rw [classList_foldl_dragMove (m :: ms) dz "ready" (by decide)]
    simp
  · simpa [dragAndLeave, onDragleave] using h1
  · simpa [dragAndLeave, onDragleave] using h2
  · simpa [dragAndLeave, onDragleave] using h3

/-! ## Resolution of an upload -/

/-- C7: a response whose status lies in [200, 400) sets the location to
"/upload/success"; any other status leaves the location as it is, sets `disabled`
of the submit control to false and shows "Upload failed. Please try again."; a
transport error leaves the location as it is, sets `disabled` to false and shows
the different message "Upload failed due to network error.". Status 201 navigates,
status 500 re-enables. -/
theorem upload_resolution (s : Int) (p : Page) :
    (xhrOnload s p).navigation =
      (if 200 ≤ s ∧ s < 400 then some "/upload/success" else p.navigation) ∧
    (xhrOnload s p).submitBtn =
      (if 200 ≤ s ∧ s < 400 then p.submitBtn else p.submitBtn.map (fun _ => false)) ∧
    (xhrOnload s p).alerts =
      (if 200 ≤ s ∧ s < 400 then p.alerts
        else p.alerts ++ ["Upload failed. Please try again."]) ∧
    (xhrOnerror p).navigation = p.navigation ∧
    (xhrOnerror p).submitBtn = p.submitBtn.map (fun _ => false) ∧
    (xhrOnerror p).alerts = p.alerts ++ ["Upload failed due to network error."] ∧
    "Upload failed due to network error." ≠ "Upload failed. Please try again." ∧
    (xhrOnload 201 p).navigation = some "/upload/success" ∧
    (xhrOnload 500 p).navigation = p.navigation ∧
    (xhrOnload 500 p).submitBtn = p.submitBtn.map (fun _ => false) := by
  refine ⟨?_, ?_, ?_, ?_, ?_, ?_, by decide, ?_, ?_, ?_⟩
  · unfold xhrOnload; split <;> simp [alert]
  · unfold xhrOnload; split <;> simp [alert]
  · unfold xhrOnload; split <;> simp [alert]
  · simp [xhrOnerror, alert]
  · simp [xhrOnerror, alert]
  · simp [xhrOnerror, alert]
  · simp [xhrOnload]
  · simp [xhrOnload, alert]
  · simp [xhrOnload, alert]

/-! ## Manual submit -/

/-- C8: a submit event on the upload form while the form's file control has no
selected file (no control, a null file list, or an empty one) shows "Please select
a .leaf file to upload.", calls `startUpload` zero times, sends no request and
leaves `disabled` of the submit control as it is; this holds for the listener of
script.js and for the dispatch with the listeners of both scripts, in either
order. -/
theorem submit_without_file (p : Page) (accountFirst : Bool)
    (hform : p.uploadForm.isSome = true)
    (hnone : p.dz.input = none ∨ p.dz.input = some { files := none } ∨
      p.dz.input = some { files := some [] }) :
    (onSubmit p).alerts = p.alerts ++ ["Please select a .leaf file to upload."] ∧
    (onSubmit p).startUploadCalls = p.startUploadCalls ∧
    (onSubmit p).requests = p.requests ∧
    (onSubmit p).submitBtn = p.submitBtn ∧
    (dispatchSubmit accountFirst p).alerts =
      p.alerts ++ ["Please select a .leaf file to upload."] ∧
    (dispatchSubmit accountFirst p).startUploadCalls = p.startUploadCalls ∧
    (dispatchSubmit accountFirst p).requests = p.requests ∧
    (dispatchSubmit accountFirst p).submitBtn = p.submitBtn := by
  have hff : firstFile p.dz.input = none := by
    rcases hnone with h | h | h <;> simp [h, firstFile]
  obtain ⟨fm, hfm⟩ := Option.isSome_iff_exists.1 hform
  have hs : onSubmit p = alert "Please select a .leaf file to upload." p := by
    simp [onSubmit, hfm, hff]
  have hs2 : ∀ q : Page, q.uploadForm = p.uploadForm → q.dz = p.dz →
      onSubmit q = alert "Please select a .leaf file to upload." q := by
    intro q h1 h2
    simp [onSubmit, h1, h2, hfm, hff]
  have hd : dispatchSubmit accountFirst p =
      alert "Please select a .leaf file to upload."
        { p with navigation := (accountRedirect p).navigation } := by
    cases accountFirst
    · simp only [dispatchSubmit, hs, Bool.false_eq_true, if_false]
      unfold accountRedirect guardsUpload
      split <;> simp_all [alert]
    · simp only [dispatchSubmit, if_true]
      unfold accountRedirect
      split
      · exact hs2 _ rfl rfl
      · exact hs
  refine ⟨by simp [hs, alert], by simp [hs, alert], by simp [hs, alert],
    by simp [hs, alert], by simp [hd, alert], by simp [hd, alert], by simp [hd, alert],
    by simp [hd, alert]⟩

/-- Witness of C8 on the sample page, whose control has an empty file list. -/
theorem submit_without_file_witness :
    emptyPage.uploadForm.isSome = true ∧
    emptyPage.dz.input = some { files := some [] } ∧
    (onSubmit emptyPage).alerts = emptyPage.alerts ++ ["Please select a .leaf file to upload."] ∧
    (onSubmit emptyPage).startUploadCalls = emptyPage.startUploadCalls ∧
    (onSubmit emptyPage).requests = emptyPage.requests ∧
    (onSubmit emptyPage).submitBtn = emptyPage.submitBtn ∧
    (dispatchSubmit true emptyPage).alerts =
      emptyPage.alerts ++ ["Please select a .leaf file to upload."] ∧
    (dispatchSubmit true emptyPage).startUploadCalls = emptyPage.startUploadCalls ∧
    (dispatchSubmit true emptyPage).requests = emptyPage.requests ∧
    (dispatchSubmit true emptyPage).submitBtn = emptyPage.submitBtn :=
  ⟨by decide, by decide,
    submit_without_file emptyPage true (by decide) (Or.inr (Or.inr (by decide)))⟩

/-! ## Drops and the delayed auto-start -/

/-- C2, evaluated where the code departs from it: the control holds "old.leaf"
from an earlier pick, "notes.txt" is dropped and rejected (the hint shows the
rejection message), and the delayed handler still calls `startUpload` once and
sends one request, carrying "old.leaf". -/
theorem rejected_drop_uploads_stale_file :
    rejects { name := "notes.txt" } = true ∧
    firstFile pickedPage.dz.input = some { name := "old.leaf" } ∧
    (dropAndSettle true (some [{ name := "notes.txt" }]) pickedPage).dz.hint =
      some "Only .leaf files allowed" ∧
    (dropAndSettle true (some [{ name := "notes.txt" }]) pickedPage).startUploadCalls =
      pickedPage.startUploadCalls + 1 ∧
    (dropAndSettle true (some [{ name := "notes.txt" }]) pickedPage).requests =
      [{ method := "POST", url := "/upload", files := [{ name := "old.leaf" }] }] := by
  decide

/-- A rejected drop on a zone whose control holds no file starts no upload (the
part of C2 that the code does keep). -/
theorem rejected_drop_empty_control (dtOk : Bool) (f : File) (fs : List File) (p : Page)
    (hrej : rejects f = true) (hempty : firstFile p.dz.input = none) :
    (dropAndSettle dtOk (some (f :: fs)) p).startUploadCalls = p.startUploadCalls ∧
    (dropAndSettle dtOk (some (f :: fs)) p).requests = p.requests := by
  simp [dropAndSettle, autoStart, onDrop, hrej, hempty]

/-- C4, evaluated where the code departs from it: "a.leaf" passes validation and
the browser refuses the assignment to the control. The zone gets the `ready` class
and the label "a.leaf", and the delayed handler finds no file in the control: no
call of `startUpload` and no request result, where the claim has exactly one. -/
theorem accepted_drop_starts_nothing :
    rejects { name := "a.leaf" } = false ∧
    "ready" ∈ (dropAndSettle false (some [{ name := "a.leaf" }]) emptyPage).dz.classList ∧
    (dropAndSettle false (some [{ name := "a.leaf" }]) emptyPage).dz.label = some "a.leaf" ∧
    (dropAndSettle false (some [{ name := "a.leaf" }]) emptyPage).startUploadCalls =
      emptyPage.startUploadCalls ∧
    (dropAndSettle false (some [{ name := "a.leaf" }]) emptyPage).requests =
      emptyPage.requests := by
  decide

/-- What the code keeps of C4 for every accepted drop, whatever the browser and the
page: the zone has the `ready` class and not the `dragover` class, and the text of
its file label, if it has one, is the name of the first file. -/
theorem accepted_drop_marks_ready (p : Page) (f : File) (fs : List File) (dtOk : Bool)
    (hacc : rejects f = false) :
    "ready" ∈ (dropAndSettle dtOk (some (f :: fs)) p).dz.classList ∧
    "dragover" ∉ (dropAndSettle dtOk (some (f :: fs)) p).dz.classList ∧
    (dropAndSettle dtOk (some (f :: fs)) p).dz.label = p.dz.label.map (fun _ => f.name) := by
  have hdz : ∀ q : Page, (autoStart q).dz = q.dz := by
    intro q
    unfold autoStart
    split
    · rfl
    · unfold startUpload
      split <;> simp [showPreview]
  refine ⟨?_, ?_, ?_⟩
  · rw [dropAndSettle, hdz]
    simp [onDrop, hacc, mem_classAdd]
  · rw [dropAndSettle, hdz]
    simp [onDrop, hacc, mem_classAdd, mem_classRemove]
  · rw [dropAndSettle, hdz]
    simp [onDrop, hacc]

/-- What the code keeps of C4 when the zone has a file control, the browser accepts
the assignment to it and the upload form exists: the control holds the first file
alone, and exactly one call of `startUpload` and one request, which carries that
file alone, result. -/
theorem accepted_drop_uploads_once (p : Page) (f : File) (fs : List File)
    (inp : InputFile) (fm : Form)
    (hacc : rejects f = false) (hinp : p.dz.input = some inp)
    (hform : p.uploadForm = some fm) :
    (dropAndSettle true (some (f :: fs)) p).dz.input = some { files := some [f] } ∧
    (dropAndSettle true (some (f :: fs)) p).startUploadCalls = p.startUploadCalls + 1 ∧
    (dropAndSettle true (some (f :: fs)) p).requests =
      p.requests ++ [{ method := "POST", url := uploadUrl fm p, files := [f] }] := by
  refine ⟨?_, ?_, ?_⟩
  · simp [dropAndSettle, autoStart, onDrop, hacc, hinp, assignFile, firstFile, startUpload,
      showPreview, hform]
  · simp [dropAndSettle, autoStart, onDrop, hacc, hinp, assignFile, firstFile, startUpload,
      showPreview, hform]
  · simp [dropAndSettle, autoStart, onDrop, hacc, hinp, assignFile, firstFile, startUpload,
      showPreview, hform, formFiles, uploadUrl]

/-- C5, evaluated where the code departs from it: "Program.LEAF" is dropped, the
assignment to the control fails and its file list stays empty. The zone is marked
ready and labelled "Program.LEAF", the delayed handler starts no upload and sends
no request, and a submit of the form afterwards only shows "Please select a .leaf
file to upload.": the dropped file is never uploaded. -/
theorem failed_assignment_dead_end :
    rejects { name := "Program.LEAF" } = false ∧
    firstFile (dropAndSettle false (some [{ name := "Program.LEAF" }]) emptyPage).dz.input = none ∧
    "ready" ∈ (dropAndSettle false (some [{ name := "Program.LEAF" }]) emptyPage).dz.classList ∧
    (dropAndSettle false (some [{ name := "Program.LEAF" }]) emptyPage).dz.label =
      some "Program.LEAF" ∧
    (dropAndSettle false (some [{ name := "Program.LEAF" }]) emptyPage).startUploadCalls = 0 ∧
    (dropAndSettle false (some [{ name := "Program.LEAF" }]) emptyPage).requests = [] ∧
    (onSubmit (dropAndSettle false (some [{ name := "Program.LEAF" }]) emptyPage)).alerts =
      ["Please select a .leaf file to upload."] ∧
    (onSubmit (dropAndSettle false (some [{ name := "Program.LEAF" }]) emptyPage)).requests =
      [] := by
  decide

/-- The same for every page and every accepted file: when the assignment fails and
the control holds no file, the zone is marked ready and labelled, the control stays
as it was, and the delayed handler calls `startUpload` zero times and sends no
request. -/
theorem failed_assignment_no_upload (p : Page) (f : File) (fs : List File)
    (hacc : rejects f = false) (hempty : firstFile p.dz.input = none) :
    "ready" ∈ (dropAndSettle false (some (f :: fs)) p).dz.classList ∧
    (dropAndSettle false (some (f :: fs)) p).dz.label = p.dz.label.map (fun _ => f.name) ∧
    (dropAndSettle false (some (f :: fs)) p).dz.input = p.dz.input ∧
    (dropAndSettle false (some (f :: fs)) p).startUploadCalls = p.startUploadCalls ∧
    (dropAndSettle false (some (f :: fs)) p).requests = p.requests := by
  simp [dropAndSettle, autoStart, onDrop, hacc, hempty, assignFile, mem_classAdd]

/-! ## What a request carries -/

/-- C3, evaluated where the code departs from it: "notes.txt", which the drop
listener rejects, is chosen with the file picker and the form is submitted. The
submit listener calls `startUpload`, a request carrying "notes.txt" is sent and no
message is shown, where the claim has a message and no request. -/
theorem picked_wrong_extension_is_sent :
    rejects { name := "notes.txt" } = true ∧
    endsWith (toLowerCase "notes.txt") ".leaf" = false ∧
    (onSubmit (onPick [{ name := "notes.txt" }] emptyPage)).startUploadCalls =
      emptyPage.startUploadCalls + 1 ∧
    (onSubmit (onPick [{ name := "notes.txt" }] emptyPage)).requests =
      [{ method := "POST", url := "/upload", files := [{ name := "notes.txt" }] }] ∧
    (onSubmit (onPick [{ name := "notes.txt" }] emptyPage)).alerts = [] := by
  decide

/-- Every request that the page sends, from the submit listener or from the delayed
handler of a drop, is sent only when the upload form exists and the file control
has a first file, and carries the file list of the control. -/
theorem requests_carry_control_files (p : Page) :
    (onSubmit p).requests.map Request.files = p.requests.map Request.files ++
      (if p.uploadForm.isSome = true ∧ (firstFile p.dz.input).isSome = true
        then [formFiles p] else []) ∧
    (autoStart p).requests.map Request.files = p.requests.map Request.files ++
      (if p.uploadForm.isSome = true ∧ (firstFile p.dz.input).isSome = true
        then [formFiles p] else []) := by
  refine ⟨?_, ?_⟩
  · unfold onSubmit
    cases hu : p.uploadForm with
    | none => simp
    | some fm =>
      cases hf : firstFile p.dz.input with
      | none => simp [alert]
      | some f0 => simp [startUpload, formFiles]
  · unfold autoStart
    cases hf : firstFile p.dz.input with
    | none => simp
    | some f0 =>
      cases hu : p.uploadForm with
      | none => simp [startUpload, showPreview]
      | some fm => simp [startUpload, showPreview, formFiles]

/-- The submit listener tests only that a file is there: on a page with a file
control, files chosen with the file picker and then submitted are sent whatever
their names, and no message is shown. -/
theorem picked_files_are_sent (p : Page) (g : File) (gs : List File) (inp : InputFile)
    (hinp : p.dz.input = some inp) :
    (onSubmit (onPick (g :: gs) p)).requests.map Request.files =
      p.requests.map Request.files ++ (if p.uploadForm.isSome = true then [g :: gs] else []) ∧
    (onSubmit (onPick (g :: gs) p)).alerts = p.alerts := by
  refine ⟨?_, ?_⟩
  · cases hu : p.uploadForm with
    | none => cases hl : p.dz.label <;> simp [onSubmit, onPick, hinp, showPreview, hu, hl]
    | some fm =>
      cases hl : p.dz.label <;>
        simp [onSubmit, onPick, hinp, showPreview, hu, hl, firstFile, startUpload, formFiles]
  · cases hu : p.uploadForm with
    | none => cases hl : p.dz.label <;> simp [onSubmit, onPick, hinp, showPreview, hu, hl]
    | some fm =>
      cases hl : p.dz.label <;>
        simp [onSubmit, onPick, hinp, showPreview, hu, hl, firstFile, startUpload, formFiles]

/-! ## The unauthenticated guard -/

/-- C9, evaluated where the code departs from it: the navigation has no logout
link and no greeting, "a.leaf" is selected and the form is submitted. Whichever
script registered its listener first, the location is set to "/login?next=/upload"
and the listener of script.js still calls `startUpload`, which sends a request. -/
theorem guest_submit_still_uploads :
    logged guestPage.nav = false ∧
    guardsUpload guestPage = true ∧
    ∀ accountFirst : Bool,
      (dispatchSubmit accountFirst guestPage).navigation = some "/login?next=/upload" ∧
      (dispatchSubmit accountFirst guestPage).startUploadCalls = guestPage.startUploadCalls + 1 ∧
      (dispatchSubmit accountFirst guestPage).requests =
        [{ method := "POST", url := "/upload", files := [{ name := "a.leaf" }] }] := by
  decide

/-- The part of C9 that the code keeps: when the user is not signed in and the page
has the upload form, a submit sets the location to "/login?next=/upload", and so
does the `drop` listener of account.js. -/
theorem guest_submit_redirects (accountFirst : Bool) (p : Page)
    (hguest : logged p.nav = false) (hform : p.uploadForm.isSome = true) :
    (dispatchSubmit accountFirst p).navigation = some "/login?next=/upload" ∧
    (accountRedirect p).navigation = some "/login?next=/upload" := by
  have hg : guardsUpload p = true := by simp [guardsUpload, hguest, hform]
  have hnav : ∀ q : Page, (onSubmit q).navigation = q.navigation := by
    intro q
    unfold onSubmit
    split
    · rfl
    · split <;> simp [alert, startUpload]
  have hg2 : guardsUpload (onSubmit p) = true := by
    have h1 : (onSubmit p).nav = p.nav := by
      unfold onSubmit
      split
      · rfl
      · split <;> simp [alert, startUpload]
    have h2 : (onSubmit p).uploadForm = p.uploadForm := by
      unfold onSubmit
      split
      · rfl
      · split <;> simp [alert, startUpload]
    simp [guardsUpload, h1, h2, hguest, hform]
  constructor
  · cases accountFirst
    · simp [dispatchSubmit, accountRedirect, hg2]
    · simp [dispatchSubmit, hnav, accountRedirect, hg]
  · simp [accountRedirect, hg]

/-! ## Progress -/

/-- C6, as stated, fails: for the event {loaded: 29, total: 200} the quotient is
the double next to 0.145, its product with 100 is the double 14.499999999999998,
and the bar is set to "14%", while `round(clamp(29 / 200, 0, 1) * 100)` with halves
up is 15. -/
theorem progress_exact_counterexample :
    progressFraction 29 200 = 5224175567749775 / 2 ^ 55 ∧
    numMul (progressFraction 29 200) 100 = 8162774324609023 / 2 ^ 49 ∧
    (xhrOnprogress true 29 200 emptyPage).progressBar = some "14%" ∧
    specPercent ((29 : ℚ) / 200) = 15 ∧
    ¬ ((xhrOnprogress true 29 200 emptyPage).progressBar =
        some (toString (specPercent ((29 : ℚ) / 200)) ++ "%")) := by
  have hf : progressFraction 29 200 = 5224175567749775 / 2 ^ 55 := by
    unfold progressFraction
    rw [show ((29 : ℕ) : ℚ) = 29 by norm_num, show ((200 : ℕ) : ℚ) = 200 by norm_num,
      toDouble_29, toDouble_200, numDiv_29_200]
  have hc : clampedPercent (progressFraction 29 200) = 14 := by
    unfold clampedPercent
    rw [hf, numMul_145_100]
    have : mathRound (8162774324609023 / 2 ^ 49) = 14 := by
      unfold mathRound
      rw [Int.floor_eq_iff]
      constructor <;> norm_num
    rw [this]
    decide
  have hs : specPercent ((29 : ℚ) / 200) = 15 := by
    unfold specPercent mathRound
    rw [max_eq_right (by norm_num), min_eq_right (by norm_num), Int.floor_eq_iff]
    constructor <;> norm_num
  have hbar : (xhrOnprogress true 29 200 emptyPage).progressBar = some "14%" := by
    have : (xhrOnprogress true 29 200 emptyPage).progressBar =
        some (toString (clampedPercent (progressFraction 29 200)) ++ "%") := rfl
    rw [this, hc]
    decide
  refine ⟨hf, ?_, hbar, hs, ?_⟩
  · rw [hf, numMul_145_100]
  · rw [hbar, hs]
    decide

/-- C6, amended: for a progress event with `lengthComputable` true and a positive
total, the width that `setProgress(loaded / total)` gives the progress bar is an
integer percentage followed by "%". The percentage is `round(clamp(q, 0, 1) * 100)`
with the quotient `q = loaded / total` and the product taken in double arithmetic
and halves rounded up: clamping the rounded percentage to [0, 100], as the code
does, equals rounding the clamped fraction in that arithmetic. It differs by at most
one from the exact `round(clamp(loaded / total, 0, 1) * 100)` of the specification,
lies in 0..100 and does not decrease when `loaded` grows for a fixed total. The
events {loaded: 50, total: 200} and {loaded: 200, total: 200} give "25%" and
"100%", which are also the exact values. -/
theorem progress_width_in_doubles (loaded loaded' total : ℕ) (p : Page)
    (htotal : 0 < total) (hle : loaded ≤ loaded') :
    (xhrOnprogress true loaded total p).progressBar =
      p.progressBar.map
        (fun _ => toString (clampFirstPercent (progressFraction loaded total)) ++ "%") ∧
    clampedPercent (progressFraction loaded total) =
      clampFirstPercent (progressFraction loaded total) ∧
    |clampedPercent (progressFraction loaded total) -
      specPercent ((loaded : ℚ) / (total : ℚ))| ≤ 1 ∧
    0 < toDouble total ∧
    0 ≤ clampedPercent (progressFraction loaded total) ∧
    clampedPercent (progressFraction loaded total) ≤ 100 ∧
    clampedPercent (progressFraction loaded total) ≤
      clampedPercent (progressFraction loaded' total) ∧
    (xhrOnprogress true 50 200 p).progressBar = p.progressBar.map (fun _ => "25%") ∧
    (xhrOnprogress true 200 200 p).progressBar = p.progressBar.map (fun _ => "100%") ∧
    specPercent ((50 : ℚ) / 200) = 25 ∧
    specPercent ((200 : ℚ) / 200) = 100 := by
  have heq := clampedPercent_eq_clampFirstPercent (progressFraction_nonneg loaded total)
  have hbar : ∀ l t : ℕ, (xhrOnprogress true l t p).progressBar =
      p.progressBar.map (fun _ => toString (clampedPercent (progressFraction l t)) ++ "%") := by
    intro l t
    unfold xhrOnprogress setProgress
    cases hb : p.progressBar <;> simp [hb]
  have h25 : clampedPercent (progressFraction 50 200) = 25 := by
    have hf : progressFraction 50 200 = 1 / 4 := by
      unfold progressFraction numDiv
      rw [show ((50 : ℕ) : ℚ) = 50 by norm_num, show ((200 : ℕ) : ℚ) = 200 by norm_num,
        toDouble_50, toDouble_200, show (50 : ℚ) / 200 = 1 / 4 by norm_num, toDouble_quarter]
    rw [hf]
    unfold clampedPercent mathRound numMul
    rw [show (1 : ℚ) / 4 * 100 = 25 by norm_num, toDouble_25]
    have : ⌊(25 : ℚ) + 1 / 2⌋ = 25 := by
      rw [Int.floor_eq_iff]
      constructor <;> norm_num
    rw [this]
    decide
  have h100 : clampedPercent (progressFraction 200 200) = 100 := by
    have hf : progressFraction 200 200 = 1 := by
      unfold progressFraction numDiv
      rw [show ((200 : ℕ) : ℚ) = 200 by norm_num, toDouble_200,
        show (200 : ℚ) / 200 = 1 by norm_num, toDouble_one]
    rw [hf]
    unfold clampedPercent mathRound numMul
    rw [show (1 : ℚ) * 100 = 100 by norm_num, toDouble_100]
    have : ⌊(100 : ℚ) + 1 / 2⌋ = 100 := by
      rw [Int.floor_eq_iff]
      constructor <;> norm_num
    rw [this]
    decide
  have hs25 : specPercent ((50 : ℚ) / 200) = 25 := by
    unfold specPercent mathRound
    rw [max_eq_right (by norm_num), min_eq_right (by norm_num), Int.floor_eq_iff]
    constructor <;> norm_num
  have hs100 : specPercent ((200 : ℚ) / 200) = 100 := by
    unfold specPercent mathRound
    rw [max_eq_right (by norm_num), min_eq_right (by norm_num), Int.floor_eq_iff]
    constructor <;> norm_num
  refine ⟨?_, heq, clampedPercent_near_specPercent loaded total htotal,
    toDouble_pos (by exact_mod_cast htotal), ?_, ?_, ?_, ?_, ?_, hs25, hs100⟩
  · rw [hbar, heq]
  · unfold clampedPercent
    exact le_min (by norm_num) (le_max_left _ _)
  · unfold clampedPercent
    exact min_le_left _ _
  · exact clampedPercent_mono (progressFraction_nonneg loaded total)
      (progressFraction_mono total hle)
  · rw [hbar, h25]
    cases p.progressBar <;> simp
    decide
  · rw [hbar, h100]
    cases p.progressBar <;> simp
    decide

/-- Witness of the amended C6: the two events of the specification's example. -/
theorem progress_width_in_doubles_witness :
    0 < 200 ∧ 50 ≤ 200 ∧
    clampedPercent (progressFraction 50 200) = clampFirstPercent (progressFraction 50 200) ∧
    |clampedPercent (progressFraction 50 200) - specPercent (((50 : ℕ) : ℚ) / ((200 : ℕ) : ℚ))| ≤ 1 ∧
    clampedPercent (progressFraction 50 200) ≤ clampedPercent (progressFraction 200 200) ∧
    (xhrOnprogress true 50 200 emptyPage).progressBar = some "25%" ∧
    (xhrOnprogress true 200 200 emptyPage).progressBar = some "100%" :=
  have h := progress_width_in_doubles 50 200 200 emptyPage (by decide) (by decide)
  ⟨by decide, by decide, h.2.1, h.2.2.1, h.2.2.2.2.2.2.1, h.2.2.2.2.2.2.2.1,
    h.2.2.2.2.2.2.2.2.1⟩

end Leaf
